import Mathlib

/-!
Verification of the credit-report highlighting pipeline.

Shallow embedding of the coordinate-normalization, validation, chunking,
deduplication and highlight-placement logic of the repository.  Python
floats are modelled as exact rationals (ℚ); Python dicts with a fixed key
set are modelled as structures, a possibly missing key as an `Option`
field.  Sources:

* `test-improved-gpt5-vision.py` — `_create_dynamic_chunks`,
  `_normalize_and_validate` (normalization step, validation gates,
  dedup step);
* `hybrid-pattern-vision-analyzer.py` — `_merge_results`,
  `_vision_based_detection`, `_pattern_based_detection`;
* `pymupdf_highlight_server.py` — `_has_valid_coords`,
  `_add_highlight_to_page`, `highlight_pdf`;
* `scripts/run_real_vision_batch.py` — the per-page vision loop.
-/

namespace CreditHighlighter

/-- Rectangle given by origin and extent, the `{x, y, width, height}`
coordinate dicts of the source.  Coordinates are Python floats, modelled
as exact rationals. -/
structure Rect where
  x : ℚ
  y : ℚ
  width : ℚ
  height : ℚ
  deriving DecidableEq, Repr

/-- Unit-tagged rectangle: an element of the `rects` list that the
normalization step of `_normalize_and_validate` attaches to an issue
(`'units': 'points'`). -/
structure PRect where
  x : ℚ
  y : ℚ
  width : ℚ
  height : ℚ
  units : String
  deriving DecidableEq, Repr

/-- Per-page raster metadata, one entry of
`image_data['metadata']['pages']` (from `_extract_images`); only the
fields read by the normalizer are kept (`imageWidthPx`/`imageHeightPx`
are never consulted by `_normalize_and_validate`). -/
structure PageMeta where
  pageNumber : ℕ
  dpi : ℚ
  deriving DecidableEq, Repr

/-- A text token with coordinates in points, one entry of a page's
`tokens` list built by `_extract_text_coordinates` (fontName/fontSize
are never consulted downstream and are omitted). -/
structure TextToken where
  text : String
  x : ℚ
  y : ℚ
  width : ℚ
  height : ℚ
  deriving DecidableEq, Repr

/-- A page of `text_data['pages']`.  The source stores constant
`widthPoints = 612` and `heightPoints = 792` on every page
(`_extract_text_coordinates`), so those fields are kept as the global
constants `pageWidthPoints`/`pageHeightPoints` below rather than here. -/
structure TextPage where
  pageNumber : ℕ
  tokens : List TextToken
  labels : List String
  deriving DecidableEq, Repr

/-- An issue dict of the improved pipeline.  `coordinates` is the raw
pixel-space rectangle (`none` models the key being absent or missing one
of `x`/`y`/`width`/`height`, the case skipped by the normalizer);
`rects` is the list of points-tagged rectangles the normalization step
produces; `mappingConfidence` models the issue's confidence value (the
source's 0.85 default for an absent key is not modelled: the field is
taken as present). -/
structure Issue where
  pageNumber : ℕ
  type : String
  category : String
  coordinates : Option Rect
  rects : List PRect
  mappingConfidence : ℚ
  deriving DecidableEq, Repr

/-- Lookup of a page's raster metadata:
`next((p for p in page_meta if p['pageNumber'] == page_num), None)`. -/
def lookupPageMeta (metas : List PageMeta) (n : ℕ) : Option PageMeta :=
  metas.find? (fun m => m.pageNumber == n)

/-- Step 1 of `_normalize_and_validate` on a single issue: skip it when
its page has no raster metadata or its pixel coordinates are missing,
otherwise multiply each of the four fields by `72 / dpi`, attach the
points-tagged rectangle as `rects`, and delete the pixel
`coordinates`. -/
def normalizeIssue (metas : List PageMeta) (i : Issue) : Option Issue :=
  match lookupPageMeta metas i.pageNumber with
  | none => none
  | some meta =>
    match i.coordinates with
    | none => none
    | some c =>
      let factor : ℚ := 72 / meta.dpi
      some { i with
        coordinates := none
        rects := [⟨c.x * factor, c.y * factor, c.width * factor,
                   c.height * factor, "points"⟩] }

/-- The whole normalization loop of `_normalize_and_validate` (step 1):
issues that cannot be normalized are skipped with a warning. -/
def normalizeStep (metas : List PageMeta) (issues : List Issue) : List Issue :=
  issues.filterMap (normalizeIssue metas)

/-- Page width the validator checks against; the source hardcodes 612
both when building `text_extraction` pages and in the bounds check. -/
def pageWidthPoints : ℚ := 612

/-- Page height the validator checks against (hardcoded 792). -/
def pageHeightPoints : ℚ := 792

/-- The rectangle the validation gates read: `issue['rects'][0]`.  In
the pipeline every normalized issue carries exactly one rect; the
default is never reached there. -/
def issueRect (i : Issue) : PRect := i.rects.headD ⟨0, 0, 0, 0, ""⟩

/-- The 2-D interval-overlap test of the validation loop:
`rect['x'] < token['x'] + token['width'] and rect['x'] + rect['width'] >
token['x'] and ...` (strict on all four comparisons). -/
def tokenIntersects (r : PRect) (t : TextToken) : Bool :=
  decide (r.x < t.x + t.width) && decide (r.x + r.width > t.x) &&
  decide (r.y < t.y + t.height) && decide (r.y + r.height > t.y)

/-- Token lookup for a page:
`next((p['tokens'] for p in text_data['pages'] if p['pageNumber'] ==
page_num), [])`. -/
def tokensForPage (tpages : List TextPage) (n : ℕ) : List TextToken :=
  match tpages.find? (fun p => p.pageNumber == n) with
  | some p => p.tokens
  | none => []

/-- The validation record `issue['validation']` computed in step 2 of
`_normalize_and_validate`. -/
structure ValidationRecord where
  inBounds : Bool
  intersectsTokens : Bool
  tokenCount : ℕ
  deriving DecidableEq, Repr

/-- Step 2 of `_normalize_and_validate` on one issue: `inBounds` starts
true and is cleared when `x < 0 or y < 0 or x + width > 612 or
y + height > 792`; `tokenCount` counts the page's tokens whose rectangle
overlaps the issue's, and `intersectsTokens` is set as soon as one
does. -/
def validationOf (tpages : List TextPage) (i : Issue) : ValidationRecord :=
  let r := issueRect i
  let cnt := (tokensForPage tpages i.pageNumber).countP (fun t => tokenIntersects r t)
  { inBounds := ! decide (r.x < 0 ∨ r.y < 0 ∨
      r.x + r.width > pageWidthPoints ∨ r.y + r.height > pageHeightPoints)
    intersectsTokens := cnt != 0
    tokenCount := cnt }

/-- The acceptance condition of step 2:
`validation['inBounds'] and (validation['intersectsTokens'] or
issue.get('type') == 'critical')`. -/
def acceptIssue (tpages : List TextPage) (i : Issue) : Bool :=
  (validationOf tpages i).inBounds &&
    ((validationOf tpages i).intersectsTokens || i.type == "critical")

/-- The validation filter: issues failing `acceptIssue` are filtered
out (printed as discarded in the source, with the record retained on
the issue). -/
def validateStep (tpages : List TextPage) (issues : List Issue) : List Issue :=
  issues.filter (acceptIssue tpages)

/-- Python's `round` on an exact value: round half to even. -/
def pythonRound (q : ℚ) : ℤ :=
  if q - ⌊q⌋ < 1 / 2 then ⌊q⌋
  else if 1 / 2 < q - ⌊q⌋ then ⌊q⌋ + 1
  else if ⌊q⌋ % 2 = 0 then ⌊q⌋ else ⌊q⌋ + 1

/-- The dedup hash key of step 3 of `_normalize_and_validate`:
`(pageNumber, category, round(x / 10) * 10, round(y / 10) * 10)`. -/
def dedupKey (i : Issue) : ℕ × String × ℤ × ℤ :=
  (i.pageNumber, i.category,
   pythonRound ((issueRect i).x / 10) * 10,
   pythonRound ((issueRect i).y / 10) * 10)

/-- The dedup loop of step 3, carrying the `seen` set: an issue whose
key was already seen is dropped, otherwise it is appended and its key
recorded.  The first issue of every duplicate group survives. -/
def dedupGo : List (ℕ × String × ℤ × ℤ) → List Issue → List Issue
  | _, [] => []
  | seen, i :: rest =>
      if dedupKey i ∈ seen then dedupGo seen rest
      else i :: dedupGo (dedupKey i :: seen) rest

/-- Step 3 of `_normalize_and_validate` (deduplication). -/
def dedupStep (issues : List Issue) : List Issue := dedupGo [] issues

/-! Chunker (`_create_dynamic_chunks` of `test-improved-gpt5-vision.py`). -/

/-- `target_tokens = 8000`. -/
def targetTokens : ℕ := 8000

/-- `hard_max_tokens = 12000`; defined in the source but never consulted
by the chunking loop. -/
def hardMaxTokens : ℕ := 12000

/-- `tokens_per_image = 1200`. -/
def tokensPerImage : ℕ := 1200

/-- A chunk as built by `_create_dynamic_chunks`; `numImages` counts the
images appended to the chunk's `images` list. -/
structure Chunk where
  chunkIndex : ℕ
  pages : List ℕ
  numImages : ℕ
  textContent : String
  labels : List String
  estimatedTokens : ℕ
  deriving DecidableEq, Repr

/-- The fresh chunk dict (index, empty pages/labels/text, zero cost). -/
def emptyChunk (idx : ℕ) : Chunk := ⟨idx, [], 0, "", [], 0⟩

/-- Estimated token cost of page number `i` (0-based position) of the
input: `sum(len(token['text'])) // 4` plus `tokens_per_image` when a
rendered image exists for that position (`i < len(images)`). -/
def pageTokenCost (numImages : ℕ) (i : ℕ) (p : TextPage) : ℕ :=
  (p.tokens.map (fun t => t.text.length)).sum / 4 +
    (if i < numImages then tokensPerImage else 0)

/-- Appending one page to the current chunk: page number, top-5 labels,
text content header plus the first 100 token texts, the page's image if
present, and its estimated cost. -/
def appendPage (numImages : ℕ) (i : ℕ) (p : TextPage) (c : Chunk) : Chunk :=
  { c with
    pages := c.pages ++ [p.pageNumber]
    labels := c.labels ++ p.labels.take 5
    textContent := c.textContent ++ "\nPage " ++ toString p.pageNumber ++ ":\n" ++
      String.intercalate " " ((p.tokens.take 100).map TextToken.text)
    numImages := c.numImages + (if i < numImages then 1 else 0)
    estimatedTokens := c.estimatedTokens + pageTokenCost numImages i p }

/-- The chunking loop.  A non-empty current chunk whose cost would
exceed `target_tokens` after this page is closed first; the page is then
appended to the (possibly fresh) current chunk.  After the loop the
final chunk is appended when non-empty. -/
def chunkGo (numImages : ℕ) : List TextPage → ℕ → List Chunk → Chunk → List Chunk
  | [], _, chunks, current =>
      if current.pages = [] then chunks else chunks ++ [current]
  | p :: ps, i, chunks, current =>
      if targetTokens < current.estimatedTokens + pageTokenCost numImages i p ∧
          current.pages ≠ [] then
        chunkGo numImages ps (i + 1) (chunks ++ [current])
          (appendPage numImages i p (emptyChunk (chunks.length + 1)))
      else
        chunkGo numImages ps (i + 1) chunks (appendPage numImages i p current)

/-- `_create_dynamic_chunks`: the loop started on an empty chunk of
index 0. -/
def createDynamicChunks (pages : List TextPage) (numImages : ℕ) : List Chunk :=
  chunkGo numImages pages 0 [] (emptyChunk 0)

/-! Hybrid analyzer (`hybrid-pattern-vision-analyzer.py`). -/

/-- The `ErrorType` enum of the hybrid analyzer. -/
inductive ErrorType where
  | collection
  | chargeOff
  | latePayment
  | truncatedAccount
  | missingData
  | highUtilization
  | derogatory
  | dispute
  deriving DecidableEq, Repr

/-- The `DetectedIssue` dataclass (`bbox` is `(x, y, width, height)`). -/
structure DetectedIssue where
  errorType : ErrorType
  description : String
  pageNum : ℕ
  bbox : Rect
  confidence : ℚ
  method : String
  accountName : String
  severity : ℕ
  deriving DecidableEq, Repr

/-- Key of the `unique` dict in `_merge_results`:
`(page_num, round(bbox[0] / 10) * 10, round(bbox[1] / 10) * 10,
error_type)`. -/
abbrev MergeKey := ℕ × ℤ × ℤ × ErrorType

/-- The merge key of a detected issue. -/
def mergeKey (i : DetectedIssue) : MergeKey :=
  (i.pageNum, pythonRound (i.bbox.x / 10) * 10,
   pythonRound (i.bbox.y / 10) * 10, i.errorType)

/-- One step of `_merge_results` on the `unique` dict, modelled as an
association list in key-insertion order: a new key is appended; an
existing key's value is replaced only when the new issue's confidence is
strictly higher. -/
def mergeUpd (i : DetectedIssue) :
    List (MergeKey × DetectedIssue) → List (MergeKey × DetectedIssue)
  | [] => [(mergeKey i, i)]
  | (k, j) :: rest =>
      if k = mergeKey i then
        if j.confidence < i.confidence then (k, i) :: rest else (k, j) :: rest
      else (k, j) :: mergeUpd i rest

/-- The `unique` dict after processing a list of issues. -/
def mergeEntries (l : List DetectedIssue) : List (MergeKey × DetectedIssue) :=
  l.foldl (fun acc i => mergeUpd i acc) []

/-- `_merge_results`: pattern issues first, then vision issues, folded
into the `unique` dict; the result is `list(unique.values())`. -/
def mergeResults (patternIssues visionIssues : List DetectedIssue) :
    List DetectedIssue :=
  (mergeEntries (patternIssues ++ visionIssues)).map Prod.snd

/-- Reference fold describing which member of a duplicate group the
`unique` dict retains: the current best is replaced only by a strictly
higher confidence. -/
def runBest : Option DetectedIssue → List DetectedIssue → Option DetectedIssue
  | o, [] => o
  | none, i :: rest => runBest (some i) rest
  | some j, i :: rest =>
      runBest (some (if j.confidence < i.confidence then i else j)) rest

/-- Lookup in the `unique` dict (first entry with the key). -/
def lookupKV (k : MergeKey) (acc : List (MergeKey × DetectedIssue)) :
    Option DetectedIssue :=
  (acc.find? (fun kv => decide (kv.1 = k))).map Prod.snd

/-- `_vision_based_detection`: the GPT call on one page image is an
external collaborator, modelled as the function argument `callVision`
from the 0-based page index to the issues it reports; the loop runs over
`range(min(5, len(self.doc)))` only. -/
def visionBasedDetection (callVision : ℕ → List DetectedIssue)
    (numPages : ℕ) : List DetectedIssue :=
  (List.range (min 5 numPages)).flatMap callVision

/-- `_pattern_based_detection` at page granularity: the per-page regex
scan is the collaborator `scanPage`; the loop covers every page
(`range(len(self.doc))`). -/
def patternBasedDetection (scanPage : ℕ → List DetectedIssue)
    (numPages : ℕ) : List DetectedIssue :=
  (List.range numPages).flatMap scanPage

/-- The batch runner's vision loop (`run` of `run_real_vision_batch.py`):
`pages_to_analyze = min(5, len(images))`; page `i + 1` is analyzed from
`images[i]`.  `analyze` stands for `gpt5_vision_analyze_page`, an
external call. -/
def runBatchVision {Img Issue' : Type} (analyze : ℕ → Img → List Issue')
    (images : List Img) : List Issue' :=
  (List.range (min 5 images.length)).flatMap
    (fun i => (images.get? i).elim [] (analyze (i + 1)))

/-! Highlight server (`pymupdf_highlight_server.py`). -/

/-- A Python value as inspected by `_has_valid_coords`: an int, a float
(finite, NaN or ±infinity), or anything else (string, None, ...). -/
inductive PyFloat where
  | finite : ℚ → PyFloat
  | nan : PyFloat
  | inf : PyFloat
  | ninf : PyFloat
  deriving DecidableEq, Repr

/-- Python values relevant to the coordinate type check. -/
inductive PyVal where
  | int : ℤ → PyVal
  | float : PyFloat → PyVal
  | str : String → PyVal
  | none : PyVal
  deriving DecidableEq, Repr

/-- The `coordinates` dict of an incoming issue: each field is
`c.get(k)`, `none` when the key is missing. -/
structure PyCoords where
  x : Option PyVal
  y : Option PyVal
  width : Option PyVal
  height : Option PyVal
  deriving DecidableEq, Repr

/-- An issue as received by the `/highlight-pdf` endpoint;
`coordinates = none` models a missing key or a non-dict value. -/
structure RawIssue where
  pageNumber : ℕ
  coordinates : Option PyCoords
  deriving DecidableEq, Repr

/-- `isinstance(v, (int, float))`: ints and all floats — including NaN
and ±infinity — are numeric. -/
def isNumeric : Option PyVal → Bool
  | some (.int _) => true
  | some (.float _) => true
  | _ => false

/-- `_has_valid_coords`: `coordinates` must be a dict and all four of
`x`, `y`, `width`, `height` must be int- or float-typed. -/
def hasValidCoords (i : RawIssue) : Bool :=
  match i.coordinates with
  | none => false
  | some c => isNumeric c.x && isNumeric c.y && isNumeric c.width && isNumeric c.height

/-- The validation stanza of the `highlight_pdf` endpoint: when any
issue fails `_has_valid_coords` the request is rejected with a 400
error; otherwise the full issue list proceeds to the highlighter. -/
def highlightEndpointGate (issues : List RawIssue) : Except String (List RawIssue) :=
  if issues.all hasValidCoords then .ok issues
  else .error "Invalid or missing coordinates"

/-- A `fitz.Rect`: corner-based rectangle `(x0, y0, x1, y1)`. -/
structure FRect where
  x0 : ℚ
  y0 : ℚ
  x1 : ℚ
  y1 : ℚ
  deriving DecidableEq, Repr

/-- `fitz.Rect(x, y, x + width, y + height)` as built by
`_add_highlight_to_page`. -/
def fitzRect (c : Rect) : FRect := ⟨c.x, c.y, c.x + c.width, c.y + c.height⟩

/-- `fitz.Rect.intersects`: the two rectangles share a non-empty
(positive-extent) common rectangle. -/
def fitzIntersects (a b : FRect) : Bool :=
  decide (max a.x0 b.x0 < min a.x1 b.x1) && decide (max a.y0 b.y0 < min a.y1 b.y1)

/-- An issue as consumed by the server's highlighter.  `coordinates` is
the pixel/point rectangle (`none` models a missing or empty dict; the
per-key defaults of the source are unreachable behind
`_has_valid_coords` and are not modelled). -/
structure SIssue where
  pageNumber : ℕ
  type : String
  description : String
  coordinates : Option Rect
  deriving DecidableEq, Repr

/-- `_add_highlight_to_page`: missing coordinates raise; a rectangle
that does not intersect the page rectangle raises
`'Highlight rectangle out of bounds'`; otherwise the annotation is
drawn (modelled as success). -/
def addHighlightToPage (page : FRect) (i : SIssue) : Except String Unit :=
  match i.coordinates with
  | none => .error "Missing coordinates for issue"
  | some c =>
      if fitzIntersects (fitzRect c) page then .ok ()
      else .error "Highlight rectangle out of bounds"

/-- Sequential processing of one page's issues; the first raise aborts
(exception propagation). -/
def highlightPage (page : FRect) : List SIssue → Except String Unit
  | [] => .ok ()
  | i :: rest =>
      match addHighlightToPage page i with
      | .error e => .error e
      | .ok _ => highlightPage page rest

/-- The 0-based page key of an issue:
`issue.get('pageNumber', issue.get('page', 1)) - 1`.  (Natural
subtraction: the Python wrap-around for `pageNumber = 0` is outside the
modelled domain.) -/
def sIssueKey (i : SIssue) : ℕ := i.pageNumber - 1

/-- Key order of the `issues_by_page` dict: first-appearance order. -/
def insertionKeys (ks : List ℕ) : List ℕ :=
  ks.foldl (fun acc k => if k ∈ acc then acc else acc ++ [k]) []

/-- Processing of the grouped pages: a key beyond the document is
skipped (`continue`); otherwise the page's issues are highlighted in
order, the first raise aborting the whole run. -/
def processPages (doc : List FRect) (issues : List SIssue) :
    List ℕ → Except String Unit
  | [] => .ok ()
  | k :: rest =>
      if h : k < doc.length then
        match highlightPage (doc.get ⟨k, h⟩)
            (issues.filter (fun i => sIssueKey i == k)) with
        | .error e => .error e
        | .ok _ => processPages doc issues rest
      else processPages doc issues rest

/-- `PreciseHighlighter.highlight_pdf`: group issues by 0-based page,
then highlight page by page.  An uncaught raise is reported by the
endpoint as a 500 error to the caller; no PDF is returned. -/
def highlightPdf (doc : List FRect) (issues : List SIssue) : Except String Unit :=
  processPages doc issues (insertionKeys (issues.map sIssueKey))

/-! Concrete inputs used by counterexamples and witnesses. -/

/-- Raster metadata of a single page rendered at 300 DPI. -/
def exMetas : List PageMeta := [⟨1, 300⟩]

/-- A vision finding with pixel rectangle `{x:100, y:100, width:200,
height:40}` on page 1. -/
def exPixelIssue : Issue :=
  { pageNumber := 1, type := "critical", category := "FCRA_violation",
    coordinates := some ⟨100, 100, 200, 40⟩, rects := [], mappingConfidence := 0.85 }

/-- Three empty pages numbered 1, 2, 3 (chunker witness). -/
def exPages : List TextPage := [⟨1, [], []⟩, ⟨2, [], []⟩, ⟨3, [], []⟩]

/-- A page whose own text alone costs 13000 estimated tokens, above the
hard budget of 12000. -/
def heavyPage : TextPage :=
  ⟨1, List.replicate 13000 ⟨"aaaa", 0, 0, 0, 0⟩, []⟩

/-- Normalized detection `{x:600, y:780, width:50, height:50}` on a
612×792 page. -/
def oobIssue : Issue :=
  { pageNumber := 1, type := "warning", category := "FCRA_violation",
    coordinates := none, rects := [⟨600, 780, 50, 50, "points"⟩],
    mappingConfidence := 0.85 }

/-- An in-bounds, non-high-trust detection far away from every token. -/
def medIssue : Issue :=
  { pageNumber := 1, type := "warning", category := "accuracy",
    coordinates := none, rects := [⟨100, 100, 50, 20, "points"⟩],
    mappingConfidence := 0.85 }

/-- The same rectangle with the high-trust type. -/
def critIssue : Issue := { medIssue with type := "critical" }

/-- A token page whose only token does not touch `medIssue`'s
rectangle. -/
def farTokenPages : List TextPage :=
  [⟨1, [⟨"BALANCE", 400, 400, 50, 10⟩], []⟩]

/-- Duplicate pair for the improved pipeline's dedup step: same page,
same category, both rectangles bucketing to cell (100, 100), confidence
0.7 first. -/
def dupA : Issue :=
  { pageNumber := 2, type := "warning", category := "accuracy",
    coordinates := none, rects := [⟨99, 102, 50, 20, "points"⟩],
    mappingConfidence := 0.7 }

/-- The later, higher-confidence member of the duplicate pair. -/
def dupB : Issue :=
  { dupA with rects := [⟨101, 98, 40, 18, "points"⟩], mappingConfidence := 0.95 }

/-- Pattern-based duplicate (confidence 0.7) for the hybrid merge. -/
def mdA : DetectedIssue :=
  { errorType := .latePayment, description := "Pattern match: 30 Days Past Due",
    pageNum := 2, bbox := ⟨99, 102, 50, 20⟩, confidence := 0.7,
    method := "pattern", accountName := "Unknown", severity := 3 }

/-- Vision-based duplicate (confidence 0.95) of the same finding. -/
def mdB : DetectedIssue :=
  { mdA with bbox := ⟨101, 98, 40, 18⟩, confidence := 0.95, method := "vision" }

/-- One probe issue tagged with the page it came from. -/
def probeIssue (p : ℕ) : DetectedIssue :=
  { errorType := .missingData, description := "probe", pageNum := p,
    bbox := ⟨0, 0, 1, 1⟩, confidence := 1, method := "vision",
    accountName := "Unknown", severity := 2 }

/-- A collaborator that reports exactly one probe issue per page. -/
def visionProbe (p : ℕ) : List DetectedIssue := [probeIssue p]

/-- A single letter-size page for the placement counterweight. -/
def exDoc : List FRect := [⟨0, 0, 612, 792⟩]

/-- A server issue whose rectangle lies fully right of the page. -/
def outsideSIssue : SIssue :=
  { pageNumber := 1, type := "warning", description := "outside",
    coordinates := some ⟨700, 100, 50, 50⟩ }

/-- A server issue whose coordinates dict contains a NaN `x`. -/
def nanIssue : RawIssue :=
  { pageNumber := 1,
    coordinates := some ⟨some (.float .nan), some (.float (.finite 100)),
      some (.float (.finite 50)), some (.float (.finite 20))⟩ }

/-! Normalization lemmas (claims C1 and C2). -/

theorem normalizeIssue_coordinates_none {metas : List PageMeta} {i j : Issue}
    (h : normalizeIssue metas i = some j) : j.coordinates = none := by
  unfold normalizeIssue at h
  cases hm : lookupPageMeta metas i.pageNumber with
  | none => rw [hm] at h; exact absurd h (by simp)
  | some meta =>
    rw [hm] at h
    cases hc : i.coordinates with
    | none => rw [hc] at h; exact absurd h (by simp)
    | some c =>
      rw [hc] at h
      simp only [Option.some.injEq] at h
      subst h
      rfl

/-- C1 counterexample: the claim fails on the code as stated.  The
detection with pixel rectangle {100, 100, 200, 40} on the 300-DPI page
normalizes to a points-tagged detection, but applying the normalization
step a second time drops that detection (it no longer carries pixel
`coordinates`) instead of passing it through unchanged: the second
application yields the empty list while the first is non-empty. -/
theorem normalize_not_noop_cex :
    normalizeStep exMetas (normalizeStep exMetas [exPixelIssue]) = [] ∧
    normalizeStep exMetas [exPixelIssue] ≠ [] := by
  constructor
  · norm_num [normalizeStep, normalizeIssue, lookupPageMeta, exMetas, exPixelIssue,
      List.find?]
  · norm_num [normalizeStep, normalizeIssue, lookupPageMeta, exMetas, exPixelIssue,
      List.find?]
    decide

/-- C1 (amended): re-normalizing never applies the 72/DPI factor a
second time, but it is not a no-op either: every issue the
normalization step outputs has had its pixel `coordinates` deleted, so
a second application of the step skips — and thereby drops — every
already-points-tagged detection.  Running the step twice on any input
therefore yields the empty list, and in particular no rectangle is ever
double-scaled. -/
theorem normalizeStep_twice_eq_nil (metas : List PageMeta) (issues : List Issue) :
    normalizeStep metas (normalizeStep metas issues) = [] := by
  rw [normalizeStep, List.filterMap_eq_nil_iff]
  intro j hj
  rw [normalizeStep, List.mem_filterMap] at hj
  obtain ⟨i, _, hi⟩ := hj
  have hc := normalizeIssue_coordinates_none hi
  cases hm : lookupPageMeta metas j.pageNumber with
  | none => simp [normalizeIssue, hm]
  | some m => simp [normalizeIssue, hm, hc]

/-- C2: for a detection whose page has raster metadata, normalization
multiplies each of the four rectangle fields x, y, width, height
independently by the factor 72/DPI and tags the resulting rectangle as
points. -/
theorem normalize_unit_correct (metas : List PageMeta) (i : Issue)
    (m : PageMeta) (c : Rect)
    (hm : lookupPageMeta metas i.pageNumber = some m)
    (hc : i.coordinates = some c) :
    (normalizeIssue metas i).map Issue.rects =
      some [⟨c.x * (72 / m.dpi), c.y * (72 / m.dpi),
             c.width * (72 / m.dpi), c.height * (72 / m.dpi), "points"⟩] := by
  simp [normalizeIssue, hm, hc]

/-- C2 witness: the pixel rectangle {x:100, y:100, width:200, height:40}
at 300 DPI normalizes to the points rectangle {x:24, y:24, width:48,
height:9.6}. -/
theorem normalize_unit_correct_witness :
    (normalizeIssue exMetas exPixelIssue).map Issue.rects =
      some [⟨24, 24, 48, 9.6, "points"⟩] := by
  have h := normalize_unit_correct exMetas exPixelIssue ⟨1, 300⟩ ⟨100, 100, 200, 40⟩
    (by norm_num [lookupPageMeta, exMetas, exPixelIssue, List.find?]) rfl
  rw [h]
  norm_num

/-! Chunker lemmas (claims C3 and C4). -/

theorem appendPage_pages (numImages i : ℕ) (p : TextPage) (c : Chunk) :
    (appendPage numImages i p c).pages = c.pages ++ [p.pageNumber] := rfl

theorem appendPage_estimatedTokens (numImages i : ℕ) (p : TextPage) (c : Chunk) :
    (appendPage numImages i p c).estimatedTokens =
      c.estimatedTokens + pageTokenCost numImages i p := rfl

theorem chunkGo_flatten (numImages : ℕ) :
    ∀ (ps : List TextPage) (i : ℕ) (chunks : List Chunk) (current : Chunk),
      ((chunkGo numImages ps i chunks current).map Chunk.pages).flatten =
        (chunks.map Chunk.pages).flatten ++ current.pages ++ ps.map TextPage.pageNumber
  | [], i, chunks, current => by
      rw [chunkGo]
      by_cases h : current.pages = []
      · simp [h]
      · simp [h]
  | p :: ps, i, chunks, current => by
      rw [chunkGo]
      by_cases h : targetTokens < current.estimatedTokens + pageTokenCost numImages i p ∧
          current.pages ≠ []
      · rw [if_pos h, chunkGo_flatten numImages ps (i + 1)]
        simp [appendPage_pages, emptyChunk, List.append_assoc]
      · rw [if_neg h, chunkGo_flatten numImages ps (i + 1)]
        simp [appendPage_pages, List.append_assoc]

theorem chunkGo_acc_extends (numImages : ℕ) :
    ∀ (ps : List TextPage) (i : ℕ) (chunks : List Chunk) (current : Chunk),
      ∃ rest, chunkGo numImages ps i chunks current = chunks ++ rest
  | [], i, chunks, current => by
      rw [chunkGo]
      by_cases h : current.pages = []
      · exact ⟨[], by simp [h]⟩
      · exact ⟨[current], by simp [h]⟩
  | p :: ps, i, chunks, current => by
      rw [chunkGo]
      by_cases h : targetTokens < current.estimatedTokens + pageTokenCost numImages i p ∧
          current.pages ≠ []
      · rw [if_pos h]
        obtain ⟨rest, hrest⟩ :=
          chunkGo_acc_extends numImages ps (i + 1) (chunks ++ [current])
            (appendPage numImages i p (emptyChunk (chunks.length + 1)))
        exact ⟨[current] ++ rest, by rw [hrest, List.append_assoc]⟩
      · rw [if_neg h]
        exact chunkGo_acc_extends numImages ps (i + 1) chunks (appendPage numImages i p current)

theorem chunkGo_budget (numImages : ℕ) :
    ∀ (ps : List TextPage) (i : ℕ) (chunks : List Chunk) (current : Chunk),
      (∀ c ∈ chunks, 2 ≤ c.pages.length → c.estimatedTokens ≤ targetTokens) →
      (2 ≤ current.pages.length → current.estimatedTokens ≤ targetTokens) →
      ∀ c ∈ chunkGo numImages ps i chunks current,
        2 ≤ c.pages.length → c.estimatedTokens ≤ targetTokens
  | [], i, chunks, current => by
      intro hacc hcur c hc
      rw [chunkGo] at hc
      by_cases h : current.pages = []
      · rw [if_pos h] at hc
        exact hacc c hc
      · rw [if_neg h] at hc
        rcases List.mem_append.1 hc with h1 | h1
        · exact hacc c h1
        · rw [List.mem_singleton.1 h1]
          exact hcur
  | p :: ps, i, chunks, current => by
      intro hacc hcur c hc
      rw [chunkGo] at hc
      by_cases h : targetTokens < current.estimatedTokens + pageTokenCost numImages i p ∧
          current.pages ≠ []
      · rw [if_pos h] at hc
        refine chunkGo_budget numImages ps (i + 1) _ _ ?_ ?_ c hc
        · intro c' hc'
          rcases List.mem_append.1 hc' with h1 | h1
          · exact hacc c' h1
          · rw [List.mem_singleton.1 h1]
            exact hcur
        · intro hlen
          exact absurd hlen (by simp [appendPage_pages, emptyChunk])
      · rw [if_neg h] at hc
        refine chunkGo_budget numImages ps (i + 1) _ _ hacc ?_ c hc
        intro hlen
        rw [appendPage_pages, List.length_append] at hlen
        have hne : current.pages ≠ [] := by
          intro hnil
          rw [hnil] at hlen
          simp at hlen
        have hle : ¬ targetTokens < current.estimatedTokens + pageTokenCost numImages i p :=
          fun hlt => h ⟨hlt, hne⟩
        rw [appendPage_estimatedTokens]
        omega

theorem chunkGo_singleton_kept (numImages : ℕ) :
    ∀ (ps : List TextPage) (i : ℕ) (chunks : List Chunk) (current : Chunk) (x : ℕ),
      current.pages = [x] → targetTokens < current.estimatedTokens →
      ∃ c ∈ chunkGo numImages ps i chunks current,
        c.pages = [x] ∧ c.estimatedTokens = current.estimatedTokens
  | [], i, chunks, current, x => by
      intro hpg hbig
      rw [chunkGo, if_neg (by simp [hpg])]
      exact ⟨current, List.mem_append_right _ (by simp), hpg, rfl⟩
  | p :: ps, i, chunks, current, x => by
      intro hpg hbig
      have hcond : targetTokens < current.estimatedTokens + pageTokenCost numImages i p ∧
          current.pages ≠ [] :=
        ⟨lt_of_lt_of_le hbig (Nat.le_add_right _ _), by simp [hpg]⟩
      rw [chunkGo, if_pos hcond]
      obtain ⟨rest, hrest⟩ :=
        chunkGo_acc_extends numImages ps (i + 1) (chunks ++ [current])
          (appendPage numImages i p (emptyChunk (chunks.length + 1)))
      rw [hrest]
      exact ⟨current, by simp, hpg, rfl⟩

theorem chunkGo_heavy_alone (numImages : ℕ) :
    ∀ (ps : List TextPage) (i : ℕ) (chunks : List Chunk) (current : Chunk),
      (current.pages = [] → current.estimatedTokens = 0) →
      ∀ (j : ℕ) (hj : j < ps.length),
        targetTokens < pageTokenCost numImages (i + j) (ps.get ⟨j, hj⟩) →
        ∃ c ∈ chunkGo numImages ps i chunks current,
          c.pages = [(ps.get ⟨j, hj⟩).pageNumber] ∧
          c.estimatedTokens = pageTokenCost numImages (i + j) (ps.get ⟨j, hj⟩)
  | [], _, _, _ => by
      intro _ j hj
      exact absurd hj (by simp)
  | p :: ps, i, chunks, current => by
      intro hcur j hj hbig
      match j with
      | 0 =>
        have hget : (p :: ps).get ⟨0, hj⟩ = p := rfl
        rw [hget] at hbig ⊢
        rw [Nat.add_zero] at hbig ⊢
        rw [chunkGo]
        by_cases h : targetTokens < current.estimatedTokens + pageTokenCost numImages i p ∧
            current.pages ≠ []
        · rw [if_pos h]
          have hpg : (appendPage numImages i p (emptyChunk (chunks.length + 1))).pages =
              [p.pageNumber] := by
            simp [appendPage_pages, emptyChunk]
          have hest : (appendPage numImages i p (emptyChunk (chunks.length + 1))).estimatedTokens =
              pageTokenCost numImages i p := by
            simp [appendPage_estimatedTokens, emptyChunk]
          obtain ⟨c, hcmem, hcpg, hcest⟩ :=
            chunkGo_singleton_kept numImages ps (i + 1) (chunks ++ [current])
              (appendPage numImages i p (emptyChunk (chunks.length + 1))) p.pageNumber hpg
              (by rw [hest]; exact hbig)
          exact ⟨c, hcmem, hcpg, by rw [hcest, hest]⟩
        · rw [if_neg h]
          rcases Decidable.em (current.pages = []) with hpe | hpe
          · have hest0 := hcur hpe
            have hpg : (appendPage numImages i p current).pages = [p.pageNumber] := by
              rw [appendPage_pages, hpe]
              rfl
            have hest : (appendPage numImages i p current).estimatedTokens =
                pageTokenCost numImages i p := by
              rw [appendPage_estimatedTokens, hest0, Nat.zero_add]
            obtain ⟨c, hcmem, hcpg, hcest⟩ :=
              chunkGo_singleton_kept numImages ps (i + 1) chunks
                (appendPage numImages i p current) p.pageNumber hpg
                (by rw [hest]; exact hbig)
            exact ⟨c, hcmem, hcpg, by rw [hcest, hest]⟩
          · exact absurd ⟨lt_of_le_of_lt (Nat.le_add_left _ _) (Nat.add_lt_add_left hbig _),
              hpe⟩ h
      | j' + 1 =>
        have hj' : j' < ps.length := by
          have := hj
          simp at this
          omega
        have hget : (p :: ps).get ⟨j' + 1, hj⟩ = ps.get ⟨j', hj'⟩ := rfl
        rw [hget] at hbig ⊢
        have hidx : i + (j' + 1) = (i + 1) + j' := by omega
        rw [hidx] at hbig ⊢
        rw [chunkGo]
        by_cases h : targetTokens < current.estimatedTokens + pageTokenCost numImages i p ∧
            current.pages ≠ []
        · rw [if_pos h]
          exact chunkGo_heavy_alone numImages ps (i + 1) (chunks ++ [current])
            (appendPage numImages i p (emptyChunk (chunks.length + 1)))
            (by intro hnil; rw [appendPage_pages] at hnil; simp at hnil) j' hj' hbig
        · rw [if_neg h]
          exact chunkGo_heavy_alone numImages ps (i + 1) chunks
            (appendPage numImages i p current)
            (by intro hnil; rw [appendPage_pages] at hnil; simp at hnil) j' hj' hbig

/-- C3: for every input page sequence the chunker's output concatenates,
chunk by chunk, exactly the input's page numbers in their original order
(coverage, no drop, no reorder); when the input page numbers are
pairwise distinct no page number occurs in two chunks; and when the
input page numbers are consecutive (each successor one more than its
predecessor, as in a document numbered 1..n) every chunk's page list is
itself contiguous and increasing. -/
theorem chunks_cover_pages (pages : List TextPage) (numImages : ℕ) :
    ((createDynamicChunks pages numImages).map Chunk.pages).flatten =
        pages.map TextPage.pageNumber ∧
    ((pages.map TextPage.pageNumber).Nodup →
      (((createDynamicChunks pages numImages).map Chunk.pages).flatten).Nodup) ∧
    ((pages.map TextPage.pageNumber).Chain' (fun a b => b = a + 1) →
      ∀ c ∈ createDynamicChunks pages numImages,
        c.pages.Chain' (fun a b => b = a + 1)) := by
  have hflat : ((createDynamicChunks pages numImages).map Chunk.pages).flatten =
      pages.map TextPage.pageNumber := by
    rw [createDynamicChunks, chunkGo_flatten]
    simp [emptyChunk]
  refine ⟨hflat, fun hnd => hflat ▸ hnd, fun hchain c hc => ?_⟩
  have hinf : c.pages <:+: ((createDynamicChunks pages numImages).map Chunk.pages).flatten :=
    List.infix_of_mem_flatten (List.mem_map_of_mem _ hc)
  rw [hflat] at hinf
  exact List.Chain'.infix hchain hinf

/-- C3 witness: on three cheap pages numbered 1..3 the chunker emits
page lists flattening to [1, 2, 3] and every chunk is contiguous and
increasing. -/
theorem chunks_cover_pages_witness :
    ((createDynamicChunks exPages 0).map Chunk.pages).flatten = [1, 2, 3] ∧
    ∀ c ∈ createDynamicChunks exPages 0,
      c.pages.Chain' (fun a b => b = a + 1) := by
  have h := chunks_cover_pages exPages 0
  refine ⟨?_, h.2.2 (by simp [exPages, List.chain'_cons])⟩
  rw [h.1]
  rfl

/-- C4: every chunk holding more than one page has estimated cost at
most the target budget of 8000 (a non-empty chunk is closed before a
page that would push it over target), and a page whose own cost exceeds
the hard budget of 12000 is still placed — alone, in a chunk of its
own — rather than dropped or causing a failure. -/
theorem chunk_budget_respected (pages : List TextPage) (numImages : ℕ) :
    (∀ c ∈ createDynamicChunks pages numImages,
        2 ≤ c.pages.length → c.estimatedTokens ≤ targetTokens) ∧
    (∀ (j : ℕ) (hj : j < pages.length),
        hardMaxTokens < pageTokenCost numImages j (pages.get ⟨j, hj⟩) →
        ∃ c ∈ createDynamicChunks pages numImages,
          c.pages = [(pages.get ⟨j, hj⟩).pageNumber] ∧
          c.estimatedTokens = pageTokenCost numImages j (pages.get ⟨j, hj⟩)) := by
  constructor
  · exact fun c hc =>
      chunkGo_budget numImages pages 0 [] (emptyChunk 0) (by simp)
        (by intro h2; simp [emptyChunk] at h2) c hc
  · intro j hj hbig
    have htgt : targetTokens < pageTokenCost numImages (0 + j) (pages.get ⟨j, hj⟩) := by
      rw [Nat.zero_add]
      exact lt_trans (by norm_num [targetTokens, hardMaxTokens]) hbig
    have h := chunkGo_heavy_alone numImages pages 0 [] (emptyChunk 0)
      (fun _ => rfl) j hj htgt
    rw [Nat.zero_add] at h
    exact h

/-- C4 witness: a single page of 13000 estimated tokens (above the hard
budget) lands alone in its own chunk with exactly that cost. -/
theorem chunk_budget_respected_witness :
    ∃ c ∈ createDynamicChunks [heavyPage] 0,
      c.pages = [1] ∧ c.estimatedTokens = 13000 := by
  have hcost : pageTokenCost 0 0 heavyPage = 13000 := by
    simp only [pageTokenCost, heavyPage, List.map_replicate, List.sum_replicate, smul_eq_mul]
    norm_num [show ("aaaa").length = 4 from rfl]
  have hget : ([heavyPage].get ⟨0, by norm_num⟩) = heavyPage := rfl
  have h := (chunk_budget_respected [heavyPage] 0).2 0 (by norm_num)
    (by rw [hget, hcost]; norm_num [hardMaxTokens])
  rw [hget] at h
  have hpn : heavyPage.pageNumber = 1 := rfl
  rw [hpn, hcost] at h
  exact h

/-! Validation-gate lemmas (claims C5 and C6). -/

/-- C5: a normalized detection whose rectangle has a coordinate below 0
or extends past the page's width (612) or height (792) is rejected by
the validation gate — its record carries `inBounds = false`, the
acceptance test fails whatever its type, and it never survives the
validation filter (the rectangle is discarded, not clipped).  The
source hardcodes the 612×792 letter-size page dimensions that the
extraction stage assigns to every page. -/
theorem validation_rejects_out_of_bounds (tpages : List TextPage)
    (issues : List Issue) (i : Issue)
    (h : (issueRect i).x < 0 ∨ (issueRect i).y < 0 ∨
         (issueRect i).x + (issueRect i).width > pageWidthPoints ∨
         (issueRect i).y + (issueRect i).height > pageHeightPoints) :
    (validationOf tpages i).inBounds = false ∧
    acceptIssue tpages i = false ∧
    i ∉ validateStep tpages issues := by
  have hb : (validationOf tpages i).inBounds = false := by
    simp [validationOf, h]
  have hacc : acceptIssue tpages i = false := by
    rw [acceptIssue, hb]
    rfl
  refine ⟨hb, hacc, fun hmem => ?_⟩
  rw [validateStep, List.mem_filter, hacc] at hmem
  exact Bool.noConfusion hmem.2

/-- C5 witness: on the 612×792 page the rectangle {x:600, y:780,
width:50, height:50} is discarded as out of bounds. -/
theorem validation_rejects_oob_witness :
    (validationOf [] oobIssue).inBounds = false ∧
    acceptIssue [] oobIssue = false ∧
    oobIssue ∉ validateStep [] [oobIssue] :=
  validation_rejects_out_of_bounds [] [oobIssue] oobIssue
    (by norm_num [issueRect, oobIssue, pageWidthPoints, pageHeightPoints])

/-- C6: an in-bounds normalized detection is accepted by the validation
gate iff its rectangle intersects at least one text token on its page
(2-D interval overlap on both axes) or its type is the high-trust
`critical` tier exempt from the overlap requirement; a rejected one has
`intersectsTokens = false` in its record (the `no-evidence` reason) and
a non-high-trust type; and an issue survives the validation filter iff
it was in the input and accepted. -/
theorem validation_requires_evidence (tpages : List TextPage) (i : Issue)
    (hin : (validationOf tpages i).inBounds = true) :
    (acceptIssue tpages i = true ↔
      ((∃ t ∈ tokensForPage tpages i.pageNumber,
          tokenIntersects (issueRect i) t = true) ∨ i.type = "critical")) ∧
    (acceptIssue tpages i = false →
      (validationOf tpages i).intersectsTokens = false ∧ i.type ≠ "critical") ∧
    (∀ issues : List Issue,
      i ∈ validateStep tpages issues ↔ i ∈ issues ∧ acceptIssue tpages i = true) := by
  have hinter : (validationOf tpages i).intersectsTokens = true ↔
      ∃ t ∈ tokensForPage tpages i.pageNumber,
        tokenIntersects (issueRect i) t = true := by
    simp only [validationOf]
    rw [bne_iff_ne, Ne, List.countP_eq_zero]
    push_neg
    simp
  have hiff : acceptIssue tpages i = true ↔
      ((∃ t ∈ tokensForPage tpages i.pageNumber,
          tokenIntersects (issueRect i) t = true) ∨ i.type = "critical") := by
    rw [acceptIssue, hin, Bool.true_and, Bool.or_eq_true, beq_iff_eq, hinter]
  refine ⟨hiff, fun hfalse => ?_, fun issues => ?_⟩
  · have hnot : ¬ (acceptIssue tpages i = true) := by
      rw [hfalse]
      exact Bool.noConfusion
    rw [hiff, not_or] at hnot
    refine ⟨?_, hnot.2⟩
    rcases hi2 : (validationOf tpages i).intersectsTokens with _ | _
    · rfl
    · exact absurd (hinter.1 hi2) hnot.1
  · rw [validateStep, List.mem_filter]

/-- C6 witness: a non-high-trust detection overlapping no token on its
page is discarded with `intersectsTokens = false`, while the very same
rectangle with the high-trust `critical` type is accepted. -/
theorem validation_requires_evidence_witness :
    ((validationOf farTokenPages medIssue).intersectsTokens = false ∧
      medIssue.type ≠ "critical") ∧
    acceptIssue farTokenPages critIssue = true := by
  constructor
  · refine (validation_requires_evidence farTokenPages medIssue ?_).2.1 ?_
    · norm_num [validationOf, issueRect, medIssue, pageWidthPoints, pageHeightPoints]
    · norm_num [acceptIssue, validationOf, issueRect, medIssue, farTokenPages,
        tokensForPage, tokenIntersects, List.find?, List.countP, List.countP.go,
        pageWidthPoints, pageHeightPoints]
      decide
  · refine (validation_requires_evidence farTokenPages critIssue ?_).1.mpr (Or.inr rfl)
    norm_num [validationOf, issueRect, critIssue, medIssue,
      pageWidthPoints, pageHeightPoints]

/-! Deduplication lemmas (claim C7). -/

theorem dedupGo_filter (k : ℕ × String × ℤ × ℤ) :
    ∀ (issues : List Issue) (seen : List (ℕ × String × ℤ × ℤ)),
      (dedupGo seen issues).filter (fun i => decide (dedupKey i = k)) =
        if k ∈ seen then []
        else (issues.filter (fun i => decide (dedupKey i = k))).take 1
  | [], seen => by
      simp [dedupGo]
  | i :: rest, seen => by
      rw [dedupGo]
      by_cases hmem : dedupKey i ∈ seen
      · rw [if_pos hmem, dedupGo_filter k rest seen]
        by_cases hk : k ∈ seen
        · rw [if_pos hk, if_pos hk]
        · have hne : ¬ (dedupKey i = k) := fun he => hk (he ▸ hmem)
          rw [if_neg hk, if_neg hk, List.filter_cons_of_neg (by simp [hne])]
      · rw [if_neg hmem]
        by_cases hik : dedupKey i = k
        · have hk : ¬ k ∈ seen := fun hks => hmem (hik ▸ hks)
          rw [List.filter_cons_of_pos (by simp [hik]),
            dedupGo_filter k rest (dedupKey i :: seen),
            if_pos (by rw [← hik]; exact List.mem_cons_self _ _), if_neg hk,
            List.filter_cons_of_pos (by simp [hik])]
          rfl
        · rw [List.filter_cons_of_neg (by simp [hik]),
            dedupGo_filter k rest (dedupKey i :: seen)]
          have hcons : (k ∈ dedupKey i :: seen) ↔ k ∈ seen := by
            rw [List.mem_cons]
            exact or_iff_right (fun he => hik he.symm)
          by_cases hk : k ∈ seen
          · rw [if_pos (hcons.2 hk), if_pos hk]
          · rw [if_neg (fun hx => hk (hcons.1 hx)), if_neg hk,
              List.filter_cons_of_neg (by simp [hik])]

theorem lookupKV_cons (k k' : MergeKey) (j : DetectedIssue)
    (rest : List (MergeKey × DetectedIssue)) :
    lookupKV k ((k', j) :: rest) = if k' = k then some j else lookupKV k rest := by
  by_cases h : k' = k
  · simp [lookupKV, List.find?, h]
  · simp [lookupKV, List.find?, h]

theorem lookupKV_mergeUpd (i : DetectedIssue) (k : MergeKey) :
    ∀ acc : List (MergeKey × DetectedIssue),
      lookupKV k (mergeUpd i acc) =
        if mergeKey i = k then
          some ((lookupKV k acc).elim i
            (fun j => if j.confidence < i.confidence then i else j))
        else lookupKV k acc
  | [] => by
      by_cases hk : mergeKey i = k
      · rw [if_pos hk]
        simp [mergeUpd, lookupKV, List.find?, hk]
      · rw [if_neg hk]
        simp [mergeUpd, lookupKV, List.find?, hk]
  | (k', j) :: rest => by
      by_cases hkk : k' = mergeKey i
      · rw [show mergeUpd i ((k', j) :: rest) =
            (if j.confidence < i.confidence then (k', i) :: rest
             else (k', j) :: rest) from by rw [mergeUpd, if_pos hkk]]
        by_cases hk : mergeKey i = k
        · have hk'k : k' = k := hkk.trans hk
          by_cases hc : j.confidence < i.confidence
          · simp [lookupKV_cons, hk'k, hk, hc]
          · simp [lookupKV_cons, hk'k, hk, hc]
        · have hk'k : ¬ (k' = k) := fun h => hk (hkk.symm.trans h)
          by_cases hc : j.confidence < i.confidence
          · simp [lookupKV_cons, hk'k, hk, hc]
          · simp [lookupKV_cons, hk'k, hk, hc]
      · rw [show mergeUpd i ((k', j) :: rest) = (k', j) :: mergeUpd i rest from
          by rw [mergeUpd, if_neg hkk]]
        by_cases hk' : k' = k
        · have hik : ¬ (mergeKey i = k) := fun he => hkk (hk'.trans he.symm)
          simp [lookupKV_cons, hk', hik]
        · simp only [lookupKV_cons, if_neg hk']
          rw [lookupKV_mergeUpd i k rest]

theorem foldl_mergeUpd_lookup (k : MergeKey) :
    ∀ (l : List DetectedIssue) (acc : List (MergeKey × DetectedIssue)),
      lookupKV k (l.foldl (fun a i => mergeUpd i a) acc) =
        runBest (lookupKV k acc) (l.filter (fun i => decide (mergeKey i = k)))
  | [], acc => by
      show lookupKV k acc = runBest (lookupKV k acc) []
      cases lookupKV k acc with
      | none => rfl
      | some j => rfl
  | i :: l, acc => by
      rw [List.foldl_cons, foldl_mergeUpd_lookup k l (mergeUpd i acc),
        lookupKV_mergeUpd i k acc]
      by_cases hk : mergeKey i = k
      · rw [if_pos hk, List.filter_cons_of_pos (by simp [hk])]
        cases ho : lookupKV k acc with
        | none => rw [Option.elim_none]; rfl
        | some j => rw [Option.elim_some]; rfl
      · rw [if_neg hk, List.filter_cons_of_neg (by simp [hk])]

theorem mergeUpd_entry_consistent (i : DetectedIssue) :
    ∀ acc : List (MergeKey × DetectedIssue),
      (∀ kv ∈ acc, mergeKey kv.2 = kv.1) →
      ∀ kv ∈ mergeUpd i acc, mergeKey kv.2 = kv.1
  | [] => by
      intro _ kv hkv
      rw [mergeUpd] at hkv
      rw [List.mem_singleton.1 hkv]
  | (k', j) :: rest => by
      intro h kv hkv
      rw [mergeUpd] at hkv
      by_cases hkk : k' = mergeKey i
      · rw [if_pos hkk] at hkv
        by_cases hc : j.confidence < i.confidence
        · rw [if_pos hc] at hkv
          rcases List.mem_cons.1 hkv with hkv | hkv
          · rw [hkv, hkk]
          · exact h kv (List.mem_cons_of_mem _ hkv)
        · rw [if_neg hc] at hkv
          exact h kv hkv
      · rw [if_neg hkk] at hkv
        rcases List.mem_cons.1 hkv with hkv | hkv
        · exact h kv (hkv ▸ List.mem_cons_self _ _)
        · exact mergeUpd_entry_consistent i rest
            (fun kv' hkv' => h kv' (List.mem_cons_of_mem _ hkv')) kv hkv

theorem mergeUpd_keys (i : DetectedIssue) :
    ∀ acc : List (MergeKey × DetectedIssue),
      (mergeUpd i acc).map Prod.fst =
        if mergeKey i ∈ acc.map Prod.fst then acc.map Prod.fst
        else acc.map Prod.fst ++ [mergeKey i]
  | [] => by simp [mergeUpd]
  | (k', j) :: rest => by
      rw [mergeUpd]
      by_cases hkk : k' = mergeKey i
      · rw [if_pos hkk]
        have hmem : mergeKey i ∈ ((k', j) :: rest).map Prod.fst := by
          rw [← hkk]
          simp
        rw [if_pos hmem]
        by_cases hc : j.confidence < i.confidence
        · rw [if_pos hc]
          simp
        · rw [if_neg hc]
      · rw [if_neg hkk]
        have hcons : (mergeKey i ∈ ((k', j) :: rest).map Prod.fst) ↔
            mergeKey i ∈ rest.map Prod.fst := by
          simp only [List.map_cons, List.mem_cons]
          exact or_iff_right (fun he => hkk he.symm)
        rw [List.map_cons, mergeUpd_keys i rest]
        by_cases hmem : mergeKey i ∈ rest.map Prod.fst
        · rw [if_pos hmem, if_pos (hcons.2 hmem), List.map_cons]
        · rw [if_neg hmem, if_neg (fun hx => hmem (hcons.1 hx)), List.map_cons,
            List.cons_append]

theorem mergeUpd_keys_nodup (i : DetectedIssue)
    (acc : List (MergeKey × DetectedIssue))
    (h : (acc.map Prod.fst).Nodup) : ((mergeUpd i acc).map Prod.fst).Nodup := by
  rw [mergeUpd_keys]
  by_cases hmem : mergeKey i ∈ acc.map Prod.fst
  · rw [if_pos hmem]
    exact h
  · rw [if_neg hmem]
    refine List.Nodup.append h (List.nodup_singleton _) ?_
    intro a ha hb
    rw [List.mem_singleton.1 hb] at ha
    exact hmem ha

theorem foldl_mergeUpd_consistent :
    ∀ (l : List DetectedIssue) (acc : List (MergeKey × DetectedIssue)),
      (∀ kv ∈ acc, mergeKey kv.2 = kv.1) →
      ∀ kv ∈ l.foldl (fun a i => mergeUpd i a) acc, mergeKey kv.2 = kv.1
  | [], _ => fun h => h
  | i :: l, acc => fun h =>
      foldl_mergeUpd_consistent l (mergeUpd i acc) (mergeUpd_entry_consistent i acc h)

theorem foldl_mergeUpd_keys_nodup :
    ∀ (l : List DetectedIssue) (acc : List (MergeKey × DetectedIssue)),
      ((acc.map Prod.fst).Nodup) →
      ((l.foldl (fun a i => mergeUpd i a) acc).map Prod.fst).Nodup
  | [], _ => fun h => h
  | i :: l, acc => fun h =>
      foldl_mergeUpd_keys_nodup l (mergeUpd i acc) (mergeUpd_keys_nodup i acc h)

theorem filter_eq_find_of_nodup_keys (k : MergeKey) :
    ∀ es : List (MergeKey × DetectedIssue), ((es.map Prod.fst).Nodup) →
      es.filter (fun kv => decide (kv.1 = k)) =
        (match es.find? (fun kv => decide (kv.1 = k)) with
          | none => []
          | some kv => [kv])
  | [], _ => rfl
  | (k', j) :: rest, hnd => by
      rw [List.map_cons, List.nodup_cons] at hnd
      by_cases hk : k' = k
      · rw [List.filter_cons_of_pos (by simp [hk]),
          List.find?_cons_of_pos _ (by simp [hk])]
        have hrest : rest.filter (fun kv => decide (kv.1 = k)) = [] := by
          rw [List.filter_eq_nil_iff]
          intro kv hkv hp
          rw [decide_eq_true_eq] at hp
          have hmem : kv.1 ∈ rest.map Prod.fst := List.mem_map_of_mem Prod.fst hkv
          rw [hp, ← hk] at hmem
          exact hnd.1 hmem
        rw [hrest]
      · rw [List.filter_cons_of_neg (by simp [hk]),
          List.find?_cons_of_neg _ (by simp [hk])]
        exact filter_eq_find_of_nodup_keys k rest hnd.2

theorem mergeResults_filter (p v : List DetectedIssue) (k : MergeKey) :
    (mergeResults p v).filter (fun i => decide (mergeKey i = k)) =
      (match lookupKV k (mergeEntries (p ++ v)) with
        | none => []
        | some s => [s]) := by
  have hcons : ∀ kv ∈ mergeEntries (p ++ v), mergeKey kv.2 = kv.1 :=
    foldl_mergeUpd_consistent (p ++ v) [] (by simp)
  have hnd : ((mergeEntries (p ++ v)).map Prod.fst).Nodup :=
    foldl_mergeUpd_keys_nodup (p ++ v) [] (by simp)
  rw [mergeResults, List.filter_map]
  have hsame : (mergeEntries (p ++ v)).filter
      ((fun i => decide (mergeKey i = k)) ∘ Prod.snd) =
      (mergeEntries (p ++ v)).filter (fun kv => decide (kv.1 = k)) := by
    apply List.filter_congr
    intro kv hkv
    simp [Function.comp, hcons kv hkv]
  rw [hsame, filter_eq_find_of_nodup_keys k _ hnd]
  show _ = (match ((mergeEntries (p ++ v)).find?
      (fun kv => decide (kv.1 = k))).map Prod.snd with
    | none => ([] : List DetectedIssue)
    | some s => [s])
  cases (mergeEntries (p ++ v)).find? (fun kv => decide (kv.1 = k)) with
  | none => rfl
  | some kv => rfl

theorem runBest_spec :
    ∀ (group : List DetectedIssue) (c : DetectedIssue),
      ∃ s, runBest (some c) group = some s ∧
        ((s = c ∧ ∀ j ∈ group, j.confidence ≤ c.confidence) ∨
         (∃ pre post, group = pre ++ s :: post ∧
            c.confidence < s.confidence ∧
            (∀ j ∈ pre, j.confidence < s.confidence) ∧
            (∀ j ∈ group, j.confidence ≤ s.confidence)))
  | [], c => ⟨c, rfl, Or.inl ⟨rfl, by simp⟩⟩
  | i :: g, c => by
      by_cases hc : c.confidence < i.confidence
      · obtain ⟨s, hs, hcase⟩ := runBest_spec g i
        refine ⟨s, by rw [runBest, if_pos hc]; exact hs, Or.inr ?_⟩
        rcases hcase with ⟨hsi, hall⟩ | ⟨pre, post, hsplit, hlt, hpre, hall⟩
        · subst hsi
          exact ⟨[], g, rfl, hc, by simp, by
            intro j hj
            rcases List.mem_cons.1 hj with rfl | hj
            · exact le_refl _
            · exact hall j hj⟩
        · refine ⟨i :: pre, post, by rw [hsplit, List.cons_append],
            lt_trans hc hlt, ?_, ?_⟩
          · intro j hj
            rcases List.mem_cons.1 hj with rfl | hj
            · exact hlt
            · exact hpre j hj
          · intro j hj
            rcases List.mem_cons.1 hj with rfl | hj
            · exact le_of_lt hlt
            · exact hall j hj
      · obtain ⟨s, hs, hcase⟩ := runBest_spec g c
        refine ⟨s, by rw [runBest, if_neg hc]; exact hs, ?_⟩
        rcases hcase with ⟨hsc, hall⟩ | ⟨pre, post, hsplit, hlt, hpre, hall⟩
        · subst hsc
          refine Or.inl ⟨rfl, ?_⟩
          intro j hj
          rcases List.mem_cons.1 hj with rfl | hj
          · exact le_of_not_lt hc
          · exact hall j hj
        · refine Or.inr ⟨i :: pre, post, by rw [hsplit, List.cons_append],
            hlt, ?_, ?_⟩
          · intro j hj
            rcases List.mem_cons.1 hj with rfl | hj
            · exact lt_of_le_of_lt (le_of_not_lt hc) hlt
            · exact hpre j hj
          · intro j hj
            rcases List.mem_cons.1 hj with rfl | hj
            · exact le_of_lt (lt_of_le_of_lt (le_of_not_lt hc) hlt)
            · exact hall j hj

theorem runBest_group :
    ∀ group : List DetectedIssue, group ≠ [] →
      ∃ s pre post, runBest none group = some s ∧
        group = pre ++ s :: post ∧
        (∀ j ∈ pre, j.confidence < s.confidence) ∧
        (∀ j ∈ group, j.confidence ≤ s.confidence)
  | [] => fun h => absurd rfl h
  | g0 :: g => by
      intro _
      obtain ⟨s, hs, hcase⟩ := runBest_spec g g0
      rcases hcase with ⟨hsg, hall⟩ | ⟨pre, post, hsplit, hlt, hpre, hall⟩
      · refine ⟨s, [], g, hs, by simp [hsg], by simp, ?_⟩
        intro j hj
        rcases List.mem_cons.1 hj with rfl | hj
        · rw [hsg]
        · rw [hsg]
          exact hall j hj
      · refine ⟨s, g0 :: pre, post, hs, by rw [hsplit, List.cons_append], ?_, ?_⟩
        · intro j hj
          rcases List.mem_cons.1 hj with rfl | hj
          · exact hlt
          · exact hpre j hj
        · intro j hj
          rcases List.mem_cons.1 hj with rfl | hj
          · exact le_of_lt hlt
          · exact hall j hj

/-- C7 counterexample: the claim fails on the improved pipeline's dedup
step.  Two same-page, same-category detections whose rectangles bucket
to the same (100, 100) cell, arriving with confidences 0.7 then 0.95,
collapse to the FIRST-seen survivor of confidence 0.7 — not to the
highest-confidence one demanded by the claim. -/
theorem dedup_keeps_first_cex :
    dedupStep [dupA, dupB] = [dupA] ∧
    dedupKey dupA = dedupKey dupB ∧
    dupA.mappingConfidence = 0.7 ∧ dupB.mappingConfidence = 0.95 ∧
    dupA.mappingConfidence ≠ (0.95 : ℚ) := by
  refine ⟨?_, ?_, rfl, rfl, by norm_num [dupA]⟩
  · norm_num [dedupStep, dedupGo, dedupKey, dupA, dupB, issueRect, pythonRound]
  · norm_num [dedupKey, dupA, dupB, issueRect, pythonRound]

/-- C7 (amended): the two dedup passes of the repository differ.  In the
hybrid analyzer's merge, every non-empty duplicate group — same page,
same error type, top-left corners bucketing to the same 10-unit cell —
collapses to exactly one survivor: the earliest detection attaining the
group's maximum confidence (a strictly-greater newcomer replaces, a tie
keeps the earlier entry, and pattern-based detections precede
vision-based ones in the scanned order, giving them the tie).  The
improved pipeline's dedup step instead keeps the first-seen member of
every (page, category, cell) group regardless of confidence. -/
theorem dedup_group_semantics :
    (∀ (patternIssues visionIssues : List DetectedIssue) (k : MergeKey),
      (patternIssues ++ visionIssues).filter (fun i => decide (mergeKey i = k)) ≠ [] →
      ∃ s pre post,
        (mergeResults patternIssues visionIssues).filter
            (fun i => decide (mergeKey i = k)) = [s] ∧
        (patternIssues ++ visionIssues).filter (fun i => decide (mergeKey i = k)) =
          pre ++ s :: post ∧
        (∀ j ∈ pre, j.confidence < s.confidence) ∧
        (∀ j ∈ (patternIssues ++ visionIssues).filter
            (fun i => decide (mergeKey i = k)), j.confidence ≤ s.confidence)) ∧
    (∀ (issues : List Issue) (k : ℕ × String × ℤ × ℤ),
      (dedupStep issues).filter (fun i => decide (dedupKey i = k)) =
        (issues.filter (fun i => decide (dedupKey i = k))).take 1) := by
  constructor
  · intro p v k hne
    obtain ⟨s, pre, post, hbest, hsplit, hpre, hall⟩ := runBest_group _ hne
    have hlk : lookupKV k (mergeEntries (p ++ v)) = some s := by
      rw [mergeEntries, foldl_mergeUpd_lookup k (p ++ v) []]
      exact hbest
    refine ⟨s, pre, post, ?_, hsplit, hpre, hall⟩
    rw [mergeResults_filter, hlk]
  · intro issues k
    rw [dedupStep, dedupGo_filter k issues []]
    rw [if_neg (List.not_mem_nil k)]

/-- C7 witness: in the hybrid merge the 0.7-confidence pattern duplicate
and the 0.95-confidence vision duplicate collapse to the single
0.95-confidence survivor, which dominates its group. -/
theorem dedup_group_semantics_witness :
    (mergeResults [mdA] [mdB]).filter
        (fun i => decide (mergeKey i = mergeKey mdA)) = [mdB] ∧
    mdA.confidence ≤ mdB.confidence := by
  have h99 : pythonRound ((99 : ℚ) / 10) = 10 := by norm_num [pythonRound]
  have h101 : pythonRound ((101 : ℚ) / 10) = 10 := by norm_num [pythonRound]
  have h102 : pythonRound ((102 : ℚ) / 10) = 10 := by norm_num [pythonRound]
  have h98 : pythonRound ((98 : ℚ) / 10) = 10 := by norm_num [pythonRound]
  have hkA : mergeKey mdA = (2, 100, 100, ErrorType.latePayment) := by
    rw [show mergeKey mdA =
        (2, pythonRound ((99 : ℚ) / 10) * 10, pythonRound ((102 : ℚ) / 10) * 10,
          ErrorType.latePayment) from rfl, h99, h102]
    norm_num
  have hkB : mergeKey mdB = (2, 100, 100, ErrorType.latePayment) := by
    rw [show mergeKey mdB =
        (2, pythonRound ((101 : ℚ) / 10) * 10, pythonRound ((98 : ℚ) / 10) * 10,
          ErrorType.latePayment) from rfl, h101, h98]
    norm_num
  have hconf : mdA.confidence < mdB.confidence := by
    rw [show mdA.confidence = (0.7 : ℚ) from rfl,
      show mdB.confidence = (0.95 : ℚ) from rfl]
    norm_num
  have hgroup : ([mdA] ++ [mdB]).filter
      (fun i => decide (mergeKey i = mergeKey mdA)) = [mdA, mdB] := by
    simp [List.filter, hkA, hkB]
  have hfilter : (mergeResults [mdA] [mdB]).filter
      (fun i => decide (mergeKey i = mergeKey mdA)) = [mdB] := by
    simp [mergeResults, mergeEntries, mergeUpd, List.filter, hkA, hkB, hconf]
  obtain ⟨s, pre, post, h1, h2, h3, h4⟩ :=
    dedup_group_semantics.1 [mdA] [mdB] (mergeKey mdA) (by rw [hgroup]; simp)
  have hmemA : mdA ∈ ([mdA] ++ [mdB]).filter
      (fun i => decide (mergeKey i = mergeKey mdA)) := by
    rw [hgroup]
    exact List.mem_cons_self _ _
  have hsB : mdB = s := by
    have h1' : [mdB] = [s] := hfilter.symm.trans h1
    simpa using h1'
  refine ⟨hfilter, ?_⟩
  rw [← hsB] at h4
  exact h4 mdA hmemA

/-! Highlight-placement lemmas (claims C8 and C9). -/

theorem highlightPage_error (page : FRect) :
    ∀ (l : List SIssue) (i : SIssue), i ∈ l →
      (∃ e, addHighlightToPage page i = .error e) →
      ∃ e, highlightPage page l = .error e
  | [], i => by
      intro h _
      exact absurd h (List.not_mem_nil i)
  | j :: rest, i => by
      intro hmem herr
      cases hj : addHighlightToPage page j with
      | error e => exact ⟨e, by rw [highlightPage, hj]⟩
      | ok u =>
        rcases List.mem_cons.1 hmem with rfl | hmem'
        · obtain ⟨e, he⟩ := herr
          rw [he] at hj
          exact Except.noConfusion hj
        · obtain ⟨e, he⟩ := highlightPage_error page rest i hmem' herr
          exact ⟨e, by rw [highlightPage, hj, he]⟩

theorem processPages_error (doc : List FRect) (issues : List SIssue) :
    ∀ (ks : List ℕ) (k : ℕ) (hk : k < doc.length), k ∈ ks →
      (∃ e, highlightPage (doc.get ⟨k, hk⟩)
          (issues.filter (fun i => sIssueKey i == k)) = .error e) →
      ∃ e, processPages doc issues ks = .error e
  | [], k, hk => by
      intro h _
      exact absurd h (List.not_mem_nil k)
  | k' :: rest, k, hk => by
      intro hmem herr
      rcases List.mem_cons.1 hmem with rfl | hmem'
      · obtain ⟨e, he⟩ := herr
        exact ⟨e, by rw [processPages, dif_pos hk, he]⟩
      · rw [processPages]
        by_cases hk' : k' < doc.length
        · rw [dif_pos hk']
          cases hpage : highlightPage (doc.get ⟨k', hk'⟩)
              (issues.filter (fun i => sIssueKey i == k')) with
          | error e => exact ⟨e, rfl⟩
          | ok u =>
            exact processPages_error doc issues rest k hk hmem' herr
        · rw [dif_neg hk']
          exact processPages_error doc issues rest k hk hmem' herr

theorem insertionKeys_mem_aux (a : ℕ) :
    ∀ (l acc : List ℕ), (a ∈ acc ∨ a ∈ l) →
      a ∈ l.foldl (fun acc k => if k ∈ acc then acc else acc ++ [k]) acc
  | [], acc => by
      intro h
      rcases h with h | h
      · exact h
      · exact absurd h (List.not_mem_nil a)
  | k :: l, acc => by
      intro h
      rw [List.foldl_cons]
      apply insertionKeys_mem_aux a l
      by_cases hk : k ∈ acc
      · rw [if_pos hk]
        rcases h with h | h
        · exact Or.inl h
        · rcases List.mem_cons.1 h with rfl | h'
          · exact Or.inl hk
          · exact Or.inr h'
      · rw [if_neg hk]
        rcases h with h | h
        · exact Or.inl (List.mem_append_left _ h)
        · rcases List.mem_cons.1 h with rfl | h'
          · exact Or.inl (List.mem_append_right _ (by simp))
          · exact Or.inr h'

/-- C8: a surviving detection whose rectangle does not intersect its
target page's rectangle at all makes placement raise — the single
highlight raises `'Highlight rectangle out of bounds'` and the whole
`highlight_pdf` run fails with an error reported to the caller (the
endpoint turns the uncaught raise into a 500 response); no clipped
rectangle is ever emitted in its place. -/
theorem placement_rejects_outside (doc : List FRect) (issues : List SIssue)
    (i : SIssue) (hmem : i ∈ issues) (hk : sIssueKey i < doc.length)
    (c : Rect) (hc : i.coordinates = some c)
    (hno : fitzIntersects (fitzRect c) (doc.get ⟨sIssueKey i, hk⟩) = false) :
    (∃ e, addHighlightToPage (doc.get ⟨sIssueKey i, hk⟩) i = .error e) ∧
    (∃ e, highlightPdf doc issues = .error e) := by
  have hadd : ∃ e, addHighlightToPage (doc.get ⟨sIssueKey i, hk⟩) i = .error e := by
    refine ⟨"Highlight rectangle out of bounds", ?_⟩
    have hno' : fitzIntersects (fitzRect c) doc[sIssueKey i] = false := hno
    rw [addHighlightToPage, hc]
    simp [hno']
  refine ⟨hadd, ?_⟩
  have hkmem : sIssueKey i ∈ insertionKeys (issues.map sIssueKey) :=
    insertionKeys_mem_aux _ _ _ (Or.inr (List.mem_map_of_mem sIssueKey hmem))
  apply processPages_error doc issues _ (sIssueKey i) hk hkmem
  apply highlightPage_error _ _ i ?_ hadd
  rw [List.mem_filter]
  exact ⟨hmem, by simp⟩

/-- C8 witness: on a single 612×792 page, the issue whose rectangle
starts at x = 700 (fully right of the page) makes both the single
placement and the whole `highlight_pdf` run fail. -/
theorem placement_rejects_outside_witness :
    (∃ e, addHighlightToPage (exDoc.get ⟨0, by norm_num [exDoc]⟩) outsideSIssue =
      .error e) ∧
    (∃ e, highlightPdf exDoc [outsideSIssue] = .error e) :=
  placement_rejects_outside exDoc [outsideSIssue] outsideSIssue
    (List.mem_singleton_self _) (by norm_num [sIssueKey, outsideSIssue, exDoc])
    ⟨700, 100, 50, 50⟩ rfl
    (by show fitzIntersects (fitzRect ⟨700, 100, 50, 50⟩) ⟨0, 0, 612, 792⟩ = false
        norm_num [fitzIntersects, fitzRect, max_def, min_def])

/-- C9 counterexample: the claim fails on the code.  An issue whose `x`
coordinate is the float NaN passes `_has_valid_coords` — NaN and ±∞ are
`float` instances, so the type check accepts them — and the endpoint's
validation stanza forwards the issue to highlighting instead of
rejecting it at the boundary. -/
theorem nan_passes_gate_cex :
    hasValidCoords nanIssue = true ∧
    highlightEndpointGate [nanIssue] = .ok [nanIssue] :=
  ⟨rfl, rfl⟩

/-- C9 (amended): the `/highlight-pdf` input boundary rejects an issue
iff its `coordinates` entry is missing (or not a dict) or one of the
four fields x, y, width, height is missing or not int/float-typed; any
float value — finite or not, NaN and ±∞ included — counts as numeric,
so non-finite coordinates pass the gate and the issue list is forwarded
to highlighting, while any genuinely non-numeric coordinate causes a
400 error for the whole request. -/
theorem coord_gate_type_only :
    (∀ i : RawIssue, hasValidCoords i = true ↔
      ∃ c, i.coordinates = some c ∧ isNumeric c.x = true ∧ isNumeric c.y = true ∧
        isNumeric c.width = true ∧ isNumeric c.height = true) ∧
    (∀ f : PyFloat, isNumeric (some (.float f)) = true) ∧
    (∀ issues : List RawIssue, (∀ i ∈ issues, hasValidCoords i = true) →
      highlightEndpointGate issues = .ok issues) ∧
    (∀ (issues : List RawIssue) (i : RawIssue), i ∈ issues →
      hasValidCoords i = false → ∃ e, highlightEndpointGate issues = .error e) := by
  refine ⟨?_, fun f => rfl, ?_, ?_⟩
  · intro i
    cases hc : i.coordinates with
    | none => simp [hasValidCoords, hc]
    | some c => simp [hasValidCoords, hc, and_assoc]
  · intro issues hall
    rw [highlightEndpointGate, if_pos (List.all_eq_true.2 hall)]
  · intro issues i hmem hbad
    refine ⟨"Invalid or missing coordinates", ?_⟩
    rw [highlightEndpointGate, if_neg]
    intro hall
    rw [List.all_eq_true] at hall
    rw [hall i hmem] at hbad
    exact Bool.noConfusion hbad

/-- C9 witness: the NaN-carrying issue passes the gate and is forwarded;
an issue with no coordinates dict at all is rejected with an error. -/
theorem coord_gate_type_only_witness :
    highlightEndpointGate [nanIssue] = .ok [nanIssue] ∧
    isNumeric (some (.float .nan)) = true ∧
    (∃ e, highlightEndpointGate [⟨1, none⟩] = .error e) := by
  refine ⟨coord_gate_type_only.2.2.1 [nanIssue] ?_, coord_gate_type_only.2.1 .nan,
    coord_gate_type_only.2.2.2 [⟨1, none⟩] ⟨1, none⟩ (by simp) rfl⟩
  intro i hi
  rw [List.mem_singleton.1 hi]
  rfl

/-! Vision page-limit lemmas (claim C10). -/

/-- C10: every issue the hybrid analyzer's vision pass produces comes
from a call on a 0-based page index below 5 (and within the document);
when the document has at least 5 pages the pass analyzes exactly pages
0..4; every issue of the batch runner's vision loop comes from one of
the first `min 5 (len images)` images, analyzed as 1-based page `i + 1`;
and pattern-based detection still covers every page of the document. -/
theorem vision_first_five_pages :
    (∀ (callVision : ℕ → List DetectedIssue) (numPages : ℕ) (issue : DetectedIssue),
        issue ∈ visionBasedDetection callVision numPages →
        ∃ p, p < 5 ∧ p < numPages ∧ issue ∈ callVision p) ∧
    (∀ (callVision : ℕ → List DetectedIssue) (numPages : ℕ), 5 ≤ numPages →
        visionBasedDetection callVision numPages = (List.range 5).flatMap callVision) ∧
    (∀ {Img Issue' : Type} (analyze : ℕ → Img → List Issue') (images : List Img)
        (issue : Issue'), issue ∈ runBatchVision analyze images →
        ∃ (n : ℕ) (img : Img), n < 5 ∧ images.get? n = some img ∧
          issue ∈ analyze (n + 1) img) ∧
    (∀ (scanPage : ℕ → List DetectedIssue) (numPages p : ℕ), p < numPages →
        ∀ issue ∈ scanPage p, issue ∈ patternBasedDetection scanPage numPages) := by
  refine ⟨?_, ?_, ?_, ?_⟩
  · intro call n issue h
    rw [visionBasedDetection, List.mem_flatMap] at h
    obtain ⟨p, hp, hi⟩ := h
    rw [List.mem_range] at hp
    exact ⟨p, lt_of_lt_of_le hp (min_le_left _ _),
      lt_of_lt_of_le hp (min_le_right _ _), hi⟩
  · intro call n h5
    rw [visionBasedDetection, min_eq_left h5]
  · intro Img Issue' analyze images issue h
    rw [runBatchVision, List.mem_flatMap] at h
    obtain ⟨n, hn, hmem⟩ := h
    rw [List.mem_range] at hn
    cases hg : images.get? n with
    | none =>
      rw [hg] at hmem
      exact absurd hmem (List.not_mem_nil issue)
    | some img =>
      rw [hg] at hmem
      exact ⟨n, img, lt_of_lt_of_le hn (min_le_left _ _), hg, hmem⟩
  · intro scan n p hp issue hi
    rw [patternBasedDetection, List.mem_flatMap]
    exact ⟨p, List.mem_range.2 hp, hi⟩

/-- C10 witness: on a 7-page document the vision pass is exactly the
five calls on pages 0..4, every vision probe issue comes from such a
page, the batch runner's single probe comes from one of the first five
images, and the pattern scan of page 6 still contributes. -/
theorem vision_first_five_pages_witness :
    visionBasedDetection visionProbe 7 = (List.range 5).flatMap visionProbe ∧
    (∃ p, p < 5 ∧ p < 7 ∧ probeIssue 0 ∈ visionProbe p) ∧
    (∃ (n : ℕ) (img : ℕ), n < 5 ∧ ([10, 20, 30, 40, 50, 60, 70].get? n = some img) ∧
      probeIssue 1 ∈ (fun (m : ℕ) (_ : ℕ) => visionProbe m) (n + 1) img) ∧
    probeIssue 6 ∈ patternBasedDetection visionProbe 7 := by
  refine ⟨vision_first_five_pages.2.1 visionProbe 7 (by norm_num), ?_, ?_, ?_⟩
  · refine vision_first_five_pages.1 visionProbe 7 (probeIssue 0) ?_
    rw [visionBasedDetection, List.mem_flatMap]
    exact ⟨0, by simp, List.mem_singleton_self _⟩
  · refine vision_first_five_pages.2.2.1 (fun (m : ℕ) (_ : ℕ) => visionProbe m)
      [10, 20, 30, 40, 50, 60, 70] (probeIssue 1) ?_
    rw [runBatchVision, List.mem_flatMap]
    refine ⟨0, by norm_num, ?_⟩
    exact List.mem_singleton_self _
  · exact vision_first_five_pages.2.2.2 visionProbe 7 6 (by norm_num) (probeIssue 6)
      (List.mem_singleton_self _)

end CreditHighlighter
